import Mathlib

/-!
Verification development for the LINE ledger bot (src/app.py).

The Python source is shallowly embedded: pure helper functions become Lean
functions, the Google-Sheet row scan becomes a function over an explicit
list of rows, Python exceptions become `Except` values, and Python floats
are modelled by exact rationals (the standard caveat: rounding of binary
floats is not modelled; every concrete value used here is exactly
representable).
-/

/-- Decidable equality for Except values, used to evaluate the embedded
fallible functions on concrete inputs. -/
instance {ε α : Type} [DecidableEq ε] [DecidableEq α] : DecidableEq (Except ε α) := fun x y =>
  match x, y with
  | .ok a, .ok b =>
    if h : a = b then .isTrue (by rw [h]) else .isFalse (fun hc => by cases hc; exact h rfl)
  | .error e, .error f =>
    if h : e = f then .isTrue (by rw [h]) else .isFalse (fun hc => by cases hc; exact h rfl)
  | .ok _, .error _ => .isFalse (fun hc => by cases hc)
  | .error _, .ok _ => .isFalse (fun hc => by cases hc)

/-- Characters treated as whitespace by the Python str.strip method
(Unicode whitespace; the code points relevant to this program). -/
def pyIsSpace (c : Char) : Bool :=
  c = ' ' ∨ c = '\t' ∨ c = '\n' ∨ c = '\r' ∨ c.toNat = 0x0b ∨ c.toNat = 0x0c ∨
  c.toNat = 0x85 ∨ c.toNat = 0xa0 ∨ c.toNat = 0x1680 ∨
  (0x2000 ≤ c.toNat ∧ c.toNat ≤ 0x200a) ∨
  c.toNat = 0x2028 ∨ c.toNat = 0x2029 ∨ c.toNat = 0x202f ∨
  c.toNat = 0x205f ∨ c.toNat = 0x3000

/-- Strip leading and trailing Python whitespace from a character list. -/
def stripList (l : List Char) : List Char :=
  ((l.dropWhile pyIsSpace).reverse.dropWhile pyIsSpace).reverse

/-- Embeds the Python expression text.strip(). -/
def pyStrip (s : String) : String :=
  String.mk (stripList s.data)

/-- One character of to_halfwidth: U+3000 becomes a space, the full-width
block U+FF01 to U+FF5E is shifted down by 0xFEE0, anything else passes. -/
def to_halfwidth_char (c : Char) : Char :=
  if c.toNat = 0x3000 then ' '
  else if 0xFF01 ≤ c.toNat ∧ c.toNat ≤ 0xFF5E then Char.ofNat (c.toNat - 0xFEE0)
  else c

/-- Embeds to_halfwidth from src/app.py. -/
def to_halfwidth (s : String) : String :=
  String.mk (s.data.map to_halfwidth_char)

/-- Models the Python str.lower method on the characters this program
compares (ASCII letters are lowered, other characters pass through). -/
def pyLowerChar (c : Char) : Char :=
  if 'A' ≤ c ∧ c ≤ 'Z' then Char.ofNat (c.toNat + 32) else c

/-- Embeds text.lower() as used by the report-keyword check. -/
def pyLower (s : String) : String :=
  String.mk (s.data.map pyLowerChar)

/-- The allowed_chars set of parse_transaction: "0123456789+-*/(). ". -/
def isAllowedChar (c : Char) : Bool :=
  c ∈ "0123456789+-*/(). ".data

/-! ## The safe expression evaluator (safe_eval)

safe_eval parses its input with the Python ast module in eval mode and
walks the tree with _eval, which accepts only numeric constants, the four
binary operators of allowed_ops, and the two unary operators of
allowed_unary.  We embed the abstract syntax reachable from the character
set `{0-9 . + - * / ( )}` (numbers, the four whitelisted binary operators
plus power and floor division, unary sign, parentheses, the empty tuple
`()` and the ellipsis literal `...`), plus `invert` and `mod` as
representatives of operator kinds the grammar of this character set cannot
produce, so that the whitelist check stays structural. -/

/-- Addition on rationals through the smart constructor mkRat, so that
concrete values reduce inside the kernel (the library operations on Rat
are irreducible); proved equal to ordinary addition below. -/
def qadd (a b : ℚ) : ℚ :=
  mkRat (a.num * b.den + b.num * a.den) (a.den * b.den)

/-- Subtraction on rationals through mkRat. -/
def qsub (a b : ℚ) : ℚ :=
  mkRat (a.num * b.den - b.num * a.den) (a.den * b.den)

/-- Multiplication on rationals through mkRat. -/
def qmul (a b : ℚ) : ℚ :=
  mkRat (a.num * b.num) (a.den * b.den)

/-- Inverse on rationals through mkRat. -/
def qinv (a : ℚ) : ℚ :=
  if a.num < 0 then mkRat (-(a.den : Int)) a.num.natAbs
  else mkRat a.den a.num.natAbs

/-- Division on rationals through mkRat. -/
def qdiv (a b : ℚ) : ℚ :=
  qmul a (qinv b)

/-- Left-fold sum of a list of rationals (the shape of the Python sum
builtin) through qadd. -/
def qsum (l : List ℚ) : ℚ :=
  l.foldl qadd 0

/-- Binary operator kinds of the embedded Python AST. -/
inductive PyBinOp where
  | add | sub | mult | div | floorDiv | pow | mod
deriving DecidableEq, Repr

/-- Unary operator kinds of the embedded Python AST. -/
inductive PyUnaryOp where
  | uadd | usub | invert
deriving DecidableEq, Repr

/-- The embedded Python expression AST (ast.parse, mode eval). -/
inductive PyExpr where
  | constNum (q : ℚ)
  | constEllipsis
  | constTuple
  | binOp (o : PyBinOp) (l r : PyExpr)
  | unaryOp (o : PyUnaryOp) (e : PyExpr)
deriving DecidableEq, Repr

/-- Failure kinds of safe_eval.  emptyExpr models the explicit ValueError
for a blank expression, unparsable models a SyntaxError from ast.parse,
badOp / badUnary / badExpr model the three ValueError raises of _eval, and
divByZero models the ZeroDivisionError of true division. -/
inductive EvalErr where
  | emptyExpr | unparsable | badOp | badUnary | badExpr | divByZero
deriving DecidableEq, Repr

/-- Embeds the recursive _eval of safe_eval: the operator whitelist is
checked before the children are evaluated, numeric constants evaluate to
themselves, and every other node kind raises. -/
def evalNode : PyExpr → Except EvalErr ℚ
  | .constNum q => .ok q
  | .constEllipsis => .error .badExpr
  | .constTuple => .error .badExpr
  | .binOp o l r =>
    if o = .add ∨ o = .sub ∨ o = .mult ∨ o = .div then
      match evalNode l with
      | .error e => .error e
      | .ok x =>
        match evalNode r with
        | .error e => .error e
        | .ok y =>
          match o with
          | .add => .ok (qadd x y)
          | .sub => .ok (qsub x y)
          | .mult => .ok (qmul x y)
          | .div => if y = 0 then .error .divByZero else .ok (qdiv x y)
          | _ => .error .badOp
    else .error .badOp
  | .unaryOp o e =>
    if o = .uadd ∨ o = .usub then
      match evalNode e with
      | .error err => .error err
      | .ok x =>
        match o with
        | .uadd => .ok x
        | .usub => .ok (-x)
        | _ => .error .badUnary
    else .error .badUnary

/-- A tree is whitelisted when it is built only from numeric constants,
the four allowed binary operators and the two allowed unary operators. -/
def whitelistedTree : PyExpr → Bool
  | .constNum _ => true
  | .constEllipsis => false
  | .constTuple => false
  | .binOp o l r =>
    (o = .add ∨ o = .sub ∨ o = .mult ∨ o = .div : Bool) &&
      whitelistedTree l && whitelistedTree r
  | .unaryOp o e => (o = .uadd ∨ o = .usub : Bool) && whitelistedTree e

/-- Tokens produced by the Python tokenizer on the restricted character
set reachable from parse_transaction. -/
inductive Tok where
  | num (q : ℚ)
  | plus | minus | star | slash | dstar | dslash
  | lparen | rparen | ellipsisTok | dotTok
deriving DecidableEq, Repr

/-- Numeric value of an ASCII digit character. -/
def digitVal (c : Char) : Nat := c.toNat - 48

/-- Value of a digit run read as a decimal natural number. -/
def natOfDigits (ds : List Char) : Nat :=
  ds.foldl (fun n c => 10 * n + digitVal c) 0

/-- Value of a digit run read as a decimal fraction (digits after the
point). -/
def fracOfDigits (ds : List Char) : ℚ :=
  mkRat (natOfDigits ds : Int) (10 ^ ds.length)

/-- Fuel-driven tokenizer modelling Python tokenization of the restricted
character set: greedy numbers (integer literals with leading zeros are a
syntax error, float literals may begin or end with the point), the
two-character operators `**` and `//`, the ellipsis `...`, and a lone dot
token that no parse rule accepts.  Characters outside the set yield
`none`; fuel is one unit per character, which always suffices because at
least one character is consumed per step. -/
def tokenizeAux : Nat → List Char → Option (List Tok)
  | 0, [] => some []
  | 0, _ :: _ => none
  | _ + 1, [] => some []
  | fuel + 1, c :: cs =>
    if c.isDigit then
      let intPart := c :: cs.takeWhile Char.isDigit
      let rest₁ := cs.dropWhile Char.isDigit
      match rest₁ with
      | '.' :: rest₂ =>
        let fracPart := rest₂.takeWhile Char.isDigit
        let rest₃ := rest₂.dropWhile Char.isDigit
        (tokenizeAux fuel rest₃).map
          (fun ts => .num (qadd (natOfDigits intPart : ℚ) (fracOfDigits fracPart)) :: ts)
      | _ =>
        if c = '0' ∧ intPart.any (fun d => d ≠ '0') then none
        else (tokenizeAux fuel rest₁).map (fun ts => .num (natOfDigits intPart) :: ts)
    else if c = '.' then
      match cs with
      | '.' :: '.' :: rest => (tokenizeAux fuel rest).map (fun ts => .ellipsisTok :: ts)
      | c₂ :: _ =>
        if c₂.isDigit then
          let fracPart := cs.takeWhile Char.isDigit
          let rest := cs.dropWhile Char.isDigit
          (tokenizeAux fuel rest).map (fun ts => .num (fracOfDigits fracPart) :: ts)
        else (tokenizeAux fuel cs).map (fun ts => .dotTok :: ts)
      | [] => some [.dotTok]
    else if c = '+' then (tokenizeAux fuel cs).map (fun ts => .plus :: ts)
    else if c = '-' then (tokenizeAux fuel cs).map (fun ts => .minus :: ts)
    else if c = '*' then
      match cs with
      | '*' :: rest => (tokenizeAux fuel rest).map (fun ts => .dstar :: ts)
      | _ => (tokenizeAux fuel cs).map (fun ts => .star :: ts)
    else if c = '/' then
      match cs with
      | '/' :: rest => (tokenizeAux fuel rest).map (fun ts => .dslash :: ts)
      | _ => (tokenizeAux fuel cs).map (fun ts => .slash :: ts)
    else if c = '(' then (tokenizeAux fuel cs).map (fun ts => .lparen :: ts)
    else if c = ')' then (tokenizeAux fuel cs).map (fun ts => .rparen :: ts)
    else none

/-- Tokenize a character list. -/
def tokenize (cs : List Char) : Option (List Tok) :=
  tokenizeAux (cs.length + 1) cs

mutual

/-- Addition level of the expression grammar (Python precedence). -/
def pExpr : Nat → List Tok → Option (PyExpr × List Tok)
  | 0, _ => none
  | fuel + 1, ts => do
    let (l, ts₁) ← pTerm fuel ts
    pExprTail fuel l ts₁

/-- Left-associated chain of + and - at the addition level. -/
def pExprTail : Nat → PyExpr → List Tok → Option (PyExpr × List Tok)
  | 0, _, _ => none
  | fuel + 1, acc, .plus :: ts => do
    let (r, ts₁) ← pTerm fuel ts
    pExprTail fuel (.binOp .add acc r) ts₁
  | fuel + 1, acc, .minus :: ts => do
    let (r, ts₁) ← pTerm fuel ts
    pExprTail fuel (.binOp .sub acc r) ts₁
  | _ + 1, acc, ts => some (acc, ts)

/-- Multiplication level of the grammar. -/
def pTerm : Nat → List Tok → Option (PyExpr × List Tok)
  | 0, _ => none
  | fuel + 1, ts => do
    let (l, ts₁) ← pFactor fuel ts
    pTermTail fuel l ts₁

/-- Left-associated chain of *, / and // at the multiplication level. -/
def pTermTail : Nat → PyExpr → List Tok → Option (PyExpr × List Tok)
  | 0, _, _ => none
  | fuel + 1, acc, .star :: ts => do
    let (r, ts₁) ← pFactor fuel ts
    pTermTail fuel (.binOp .mult acc r) ts₁
  | fuel + 1, acc, .slash :: ts => do
    let (r, ts₁) ← pFactor fuel ts
    pTermTail fuel (.binOp .div acc r) ts₁
  | fuel + 1, acc, .dslash :: ts => do
    let (r, ts₁) ← pFactor fuel ts
    pTermTail fuel (.binOp .floorDiv acc r) ts₁
  | _ + 1, acc, ts => some (acc, ts)

/-- Unary-sign level: unary + and - bind tighter than * and /. -/
def pFactor : Nat → List Tok → Option (PyExpr × List Tok)
  | 0, _ => none
  | fuel + 1, .plus :: ts => do
    let (e, ts₁) ← pFactor fuel ts
    pure (.unaryOp .uadd e, ts₁)
  | fuel + 1, .minus :: ts => do
    let (e, ts₁) ← pFactor fuel ts
    pure (.unaryOp .usub e, ts₁)
  | fuel + 1, ts => pPower fuel ts

/-- Power level: `atom ** factor`, right operand at the unary level. -/
def pPower : Nat → List Tok → Option (PyExpr × List Tok)
  | 0, _ => none
  | fuel + 1, ts => do
    let (b, ts₁) ← pAtom fuel ts
    match ts₁ with
    | .dstar :: ts₂ => do
      let (e, ts₃) ← pFactor fuel ts₂
      pure (.binOp .pow b e, ts₃)
    | _ => pure (b, ts₁)

/-- Atoms: numbers, the ellipsis literal, parenthesized expressions and
the empty tuple. -/
def pAtom : Nat → List Tok → Option (PyExpr × List Tok)
  | 0, _ => none
  | _ + 1, .num q :: ts => some (.constNum q, ts)
  | _ + 1, .ellipsisTok :: ts => some (.constEllipsis, ts)
  | fuel + 1, .lparen :: ts =>
    match ts with
    | .rparen :: ts₁ => some (.constTuple, ts₁)
    | _ => do
      let (e, ts₁) ← pExpr fuel ts
      match ts₁ with
      | .rparen :: ts₂ => some (e, ts₂)
      | _ => none
  | _ + 1, _ => none

end

/-- Parse a token list to a full expression; trailing tokens are a syntax
error.  The fuel bound is a conservative bound on the recursion depth of
the descent (each token can open at most a constant number of levels). -/
def pyParseEval (toks : List Tok) : Option PyExpr :=
  match pExpr (8 * (toks.length + 1)) toks with
  | some (t, []) => some t
  | _ => none

/-- Embeds safe_eval from src/app.py: spaces are removed, a blank
expression raises, the text is parsed in eval mode and the tree is walked
by evalNode. -/
def safe_eval (expr : String) : Except EvalErr ℚ :=
  let e := expr.data.filter (fun c => c ≠ ' ')
  if e = [] then .error .emptyExpr
  else
    match tokenize e with
    | none => .error .unparsable
    | some toks =>
      match pyParseEval toks with
      | none => .error .unparsable
      | some t => evalNode t

/-! ## The command parser (parse_transaction) -/

/-- Failure kinds of parse_transaction.  notATransaction models the two
explicit ValueError raises of parse_transaction itself (text does not
start with a sign, or the consumed prefix has no digit); evalFailure
models an exception propagating out of safe_eval. -/
inductive TxError where
  | notATransaction
  | evalFailure (e : EvalErr)
deriving DecidableEq, Repr

/-- Embeds parse_transaction from src/app.py, returning
(amount, memo, expr_str) on success. -/
def parse_transaction (text : String) : Except TxError (ℚ × String × String) :=
  let s := to_halfwidth (pyStrip text)
  let cs := s.data
  match cs.head? with
  | none => .error .notATransaction
  | some c0 =>
    if c0 ≠ '+' ∧ c0 ≠ '-' then .error .notATransaction
    else
      let exprChars := cs.takeWhile isAllowedChar
      let exprStr := stripList exprChars
      if exprStr = [] ∨ ¬ exprStr.any Char.isDigit then .error .notATransaction
      else
        match safe_eval (String.mk exprStr) with
        | .error e => .error (.evalFailure e)
        | .ok amount =>
          let memoRaw := stripList (cs.drop exprChars.length)
          let memo := if memoRaw = [] then "無備註" else String.mk memoRaw
          .ok (amount, memo, String.mk exprStr)

/-! ## The record store scan

A Google-Sheet data row, as read back by get_all_records.  The readers
extract the five named columns as strings (the raw-command column is kept
for completeness) and call float() on the amount cell; `amt` is `some q`
when that call succeeds and `none` when it raises. -/
structure Row where
  time : String
  uid : String
  gid : String
  amt : Option ℚ
  memo : String
  raw : String
deriving DecidableEq, Repr

/-- A record of the list built by get_transactions_for_context. -/
structure TxView where
  time : String
  amount : ℚ
  memo : String
deriving DecidableEq, Repr

/-- Python truthiness of an optional string (None and the empty string
are falsy). -/
def truthyS : Option String → Bool
  | none => false
  | some s => s ≠ ""

/-- Models the Python str.startswith check used for the month window (a
plain prefix comparison on the character sequences). -/
def pyStartsWith (s pre : String) : Bool :=
  s.data.take pre.data.length = pre.data

/-- Models the display-time reformatting of get_transactions_for_context:
datetime.strptime with the fixed 19-character format followed by strftime
to `MM/DD HH:MM`; any string strptime rejects is displayed unchanged.
Day-in-month validation is simplified to the range 1 to 31. -/
def displayTime (t : String) : String :=
  match t.data with
  | [y1, y2, y3, y4, c1, m1, m2, c2, d1, d2, c3, h1, h2, c4, n1, n2, c5, s1, s2] =>
    if c1 = '-' ∧ c2 = '-' ∧ c3 = ' ' ∧ c4 = ':' ∧ c5 = ':' ∧
       ([y1, y2, y3, y4, m1, m2, d1, d2, h1, h2, n1, n2, s1, s2].all Char.isDigit) ∧
       (1 ≤ 10 * digitVal m1 + digitVal m2 ∧ 10 * digitVal m1 + digitVal m2 ≤ 12) ∧
       (1 ≤ 10 * digitVal d1 + digitVal d2 ∧ 10 * digitVal d1 + digitVal d2 ≤ 31) ∧
       10 * digitVal h1 + digitVal h2 ≤ 23 ∧
       10 * digitVal n1 + digitVal n2 ≤ 59 ∧
       10 * digitVal s1 + digitVal s2 ≤ 59
    then String.mk [m1, m2, '/', d1, d2, ' ', h1, h2, ':', n1, n2]
    else t
  | _ => t

/-- The record appended to the record list when a row survives all the
filters: display time, parsed amount, memo. -/
def mkView (row : Row) : Option TxView :=
  row.amt.map (fun a => { time := displayTime row.time, amount := a, memo := row.memo })

/-- One iteration of the scan loop of get_transactions_for_context:
month filter, then context filter, then the float() parse; `none` models
a continue. -/
def row_to_record (user_id : String) (group_id year_month : Option String) (row : Row) :
    Option TxView :=
  if truthyS year_month ∧ ¬ pyStartsWith row.time (year_month.getD "") then none
  else if truthyS group_id then
    if row.gid ≠ group_id.getD "" then none else mkView row
  else if ¬ (row.gid = "Private" ∧ row.uid = user_id) then none
  else mkView row

/-- Embeds get_transactions_for_context from src/app.py: the stored rows
are walked most recent first (plain reversal of append order) and each
surviving row is appended to the result. -/
def get_transactions_for_context (user_id : String) (group_id year_month : Option String)
    (rows : List Row) : List TxView :=
  rows.reverse.filterMap (row_to_record user_id group_id year_month)

/-- One iteration of the scan loop of calc_balance: parse the amount
(skip the row when float() raises), then add it to the balance when the
row matches the queried context. -/
def calcStep (user_id : String) (group_id : Option String) (bal : ℚ) (row : Row) : ℚ :=
  match row.amt with
  | none => bal
  | some amt =>
    match group_id with
    | some g =>
      if g ≠ "" then (if row.gid = g then qadd bal amt else bal)
      else (if row.gid = "Private" ∧ row.uid = user_id then qadd bal amt else bal)
    | none => if row.gid = "Private" ∧ row.uid = user_id then qadd bal amt else bal

/-- Embeds calc_balance from src/app.py over an explicit row list. -/
def calc_balance (user_id : String) (group_id : Option String) (rows : List Row) : ℚ :=
  rows.foldl (calcStep user_id group_id) 0

/-- Embeds the row construction of write_record: a fresh timestamp, the
sender, the group id or the sentinel "Private" for a falsy group id, the
amount, the memo and the raw command text. -/
def write_record_row (user_id : String) (group_id : Option String) (now : String)
    (amount : ℚ) (memo raw : String) : Row :=
  { time := now
    uid := user_id
    gid := if truthyS group_id then group_id.getD "" else "Private"
    amt := some amount
    memo := memo
    raw := raw }

/-! ## Message routing (handle_message) -/

/-- The outcome of the routing portion of handle_message. -/
inductive Route where
  | balanceQuery
  | report
  | transaction (amount : ℚ) (memo expr : String)
  | ignored
deriving DecidableEq, Repr

/-- Embeds the routing of handle_message: the stripped text is compared
with the balance keywords exactly, then its lowered form with the report
keywords, and only then is transaction parsing attempted; a parse failure
is silently ignored. -/
def handle_message_route (text0 : String) : Route :=
  let text := pyStrip text0
  if text ∈ ["餘額", "balance"] then .balanceQuery
  else if pyLower (pyStrip text) ∈ ["報表", "report", "excel"] then .report
  else
    match parse_transaction text with
    | .ok (amount, memo, expr) => .transaction amount memo expr
    | .error _ => .ignored

/-- Embeds the report branch of handle_message: the records of the
current month for this context, `none` when there are none (the bot sends
the no-records text), otherwise the first 10 records, the monthly total
over all matching records, and the record count. -/
def handle_report_query (user_id : String) (group_id : Option String)
    (current_month : String) (rows : List Row) : Option (List TxView × ℚ × Nat) :=
  let all_records := get_transactions_for_context user_id group_id (some current_month) rows
  if all_records = [] then none
  else some (all_records.take 10, qsum (all_records.map (fun r => r.amount)), all_records.length)

/-- The per-record context filter both scan functions apply: for a truthy
group id the row must carry that group id; otherwise the row must carry
the sentinel "Private" and the querying user id. -/
def ctxMatch (user_id : String) (group_id : Option String) (row : Row) : Bool :=
  match group_id with
  | some g =>
    if g ≠ "" then decide (row.gid = g)
    else decide (row.gid = "Private" ∧ row.uid = user_id)
  | none => decide (row.gid = "Private" ∧ row.uid = user_id)

/-- The contribution of one row to a balance: its parsed amount when the
row matches the context, zero otherwise (a row whose amount does not
parse contributes nothing). -/
def rowVal (user_id : String) (group_id : Option String) (row : Row) : ℚ :=
  if ctxMatch user_id group_id row ∧ row.amt.isSome then row.amt.getD 0 else 0

/-- The full per-record keep condition of the record-list scan: month
window, context match, and a parseable amount. -/
def keepRow (user_id : String) (group_id year_month : Option String) (row : Row) : Bool :=
  (!(truthyS year_month) || pyStartsWith row.time (year_month.getD "")) &&
    ctxMatch user_id group_id row && row.amt.isSome

/-- The record built from a kept row. -/
def viewOf (row : Row) : TxView :=
  { time := displayTime row.time, amount := row.amt.getD 0, memo := row.memo }

/-- A query context: the private ledger of one user, or one group
ledger. -/
inductive CtxKey where
  | priv (u : String)
  | grp (g : String)
deriving DecidableEq, Repr

/-- The context a stored row belongs to: rows carrying the sentinel
belong to the private ledger of their writer, all other rows to the group
ledger of their group id. -/
def keyOf (row : Row) : CtxKey :=
  if row.gid = "Private" then .priv row.uid else .grp row.gid

/-- Users owning at least one private-sentinel row. -/
def privateUsers (rows : List Row) : List String :=
  ((rows.filter (fun r => r.gid = "Private")).map (fun r => r.uid)).dedup

/-- Distinct group ids appearing among the rows, excluding the legacy
empty id and the sentinel. -/
def groupIdsOf (rows : List Row) : List String :=
  ((rows.map (fun r => r.gid)).dedup).filter (fun g => g ≠ "" ∧ g ≠ "Private")

/-- Sum of the private balances of all users with private rows plus the
balances of all distinct group ids (excluding the empty id and the
sentinel), each computed by calc_balance. -/
def accountedSum (rows : List Row) : ℚ :=
  ((privateUsers rows).map (fun u => calc_balance u none rows)).sum +
    ((groupIdsOf rows).map (fun g => calc_balance "" (some g) rows)).sum

/-- Total of the parseable amounts of a row list. -/
def parseableTotal (rows : List Row) : ℚ :=
  (rows.filterMap (fun r => r.amt)).sum

/-! ## Correctness of the kernel-computable rational operations -/

/-- qadd agrees with rational addition. -/
theorem qadd_eq (a b : ℚ) : qadd a b = a + b := by
  have ha : ((a.den : ℚ)) ≠ 0 := Nat.cast_ne_zero.mpr a.den_nz
  have hb : ((b.den : ℚ)) ≠ 0 := Nat.cast_ne_zero.mpr b.den_nz
  rw [qadd, Rat.mkRat_eq_div]
  conv_rhs => rw [← Rat.num_div_den a, ← Rat.num_div_den b]
  rw [div_add_div _ _ ha hb]
  push_cast
  ring_nf

/-- qsub agrees with rational subtraction. -/
theorem qsub_eq (a b : ℚ) : qsub a b = a - b := by
  have ha : ((a.den : ℚ)) ≠ 0 := Nat.cast_ne_zero.mpr a.den_nz
  have hb : ((b.den : ℚ)) ≠ 0 := Nat.cast_ne_zero.mpr b.den_nz
  rw [qsub, Rat.mkRat_eq_div]
  conv_rhs => rw [← Rat.num_div_den a, ← Rat.num_div_den b]
  rw [div_sub_div _ _ ha hb]
  push_cast
  ring_nf

/-- qmul agrees with rational multiplication. -/
theorem qmul_eq (a b : ℚ) : qmul a b = a * b := by
  rw [qmul, Rat.mkRat_eq_div]
  conv_rhs => rw [← Rat.num_div_den a, ← Rat.num_div_den b]
  rw [div_mul_div_comm]
  push_cast
  ring_nf

/-- qinv agrees with rational inversion. -/
theorem qinv_eq (a : ℚ) : qinv a = a⁻¹ := by
  rw [qinv, Rat.inv_def']
  by_cases h : a.num < 0
  · rw [if_pos h, Rat.mkRat_eq_divInt,
      show ((a.num.natAbs : Int)) = -a.num from Int.ofNat_natAbs_of_nonpos (le_of_lt h),
      Rat.divInt_neg, neg_neg]
  · rw [if_neg h, Rat.mkRat_eq_divInt, Int.natAbs_of_nonneg (le_of_not_lt h)]

/-- qdiv agrees with rational division. -/
theorem qdiv_eq (a b : ℚ) : qdiv a b = a / b := by
  rw [qdiv, qmul_eq, qinv_eq, div_eq_mul_inv]

/-- Folding qadd from an accumulator computes the accumulator plus the
list sum. -/
theorem foldl_qadd (l : List ℚ) : ∀ b : ℚ, l.foldl qadd b = b + l.sum := by
  induction l with
  | nil => intro b; simp [List.foldl]
  | cons x l ih =>
    intro b
    rw [List.foldl_cons, ih, qadd_eq, List.sum_cons]
    ring

/-- qsum agrees with the list sum. -/
theorem qsum_eq (l : List ℚ) : qsum l = l.sum := by
  rw [qsum, foldl_qadd, zero_add]

/-! ## The per-record matching predicate and the scan bridges -/

/-- A balance-scan step adds exactly the row contribution. -/
theorem calcStep_eq (user_id : String) (group_id : Option String) (b : ℚ) (row : Row) :
    calcStep user_id group_id b row = b + rowVal user_id group_id row := by
  rcases hamt : row.amt with _ | a
  · cases group_id with
    | none => simp [calcStep, rowVal, hamt]
    | some g => simp [calcStep, rowVal, hamt]
  · cases group_id with
    | none =>
      by_cases hm : row.gid = "Private" ∧ row.uid = user_id
      · simp [calcStep, rowVal, ctxMatch, hamt, hm, qadd_eq]
      · simp [calcStep, rowVal, ctxMatch, hamt, hm]
    | some g =>
      by_cases hg : g ≠ ""
      · by_cases hm : row.gid = g
        · simp [calcStep, rowVal, ctxMatch, hamt, hg, hm, qadd_eq]
        · simp [calcStep, rowVal, ctxMatch, hamt, hg, hm]
      · by_cases hm : row.gid = "Private" ∧ row.uid = user_id
        · simp [calcStep, rowVal, ctxMatch, hamt, hg, hm, qadd_eq]
        · simp [calcStep, rowVal, ctxMatch, hamt, hg, hm]

/-- The balance is the sum of the row contributions. -/
theorem calc_balance_eq_sum (user_id : String) (group_id : Option String) (rows : List Row) :
    calc_balance user_id group_id rows = (rows.map (rowVal user_id group_id)).sum := by
  suffices h : ∀ (l : List Row) (b : ℚ),
      l.foldl (calcStep user_id group_id) b = b + (l.map (rowVal user_id group_id)).sum by
    rw [calc_balance, h, zero_add]
  intro l
  induction l with
  | nil => intro b; simp
  | cons r l ih =>
    intro b
    rw [List.foldl_cons, ih, calcStep_eq, List.map_cons, List.sum_cons]
    ring

/-- The balance is the sum of the parsed amounts of the matching rows. -/
theorem calc_balance_eq_filter (user_id : String) (group_id : Option String) (rows : List Row) :
    calc_balance user_id group_id rows =
      ((rows.filter (ctxMatch user_id group_id)).filterMap (fun r => r.amt)).sum := by
  rw [calc_balance_eq_sum]
  induction rows with
  | nil => simp
  | cons r l ih =>
    rw [List.map_cons, List.sum_cons, ih, List.filter_cons]
    by_cases hm : ctxMatch user_id group_id r
    · rcases hamt : r.amt with _ | a
      · simp [rowVal, hm, hamt]
      · simp [rowVal, hm, hamt]
    · simp [rowVal, hm]

/-- The context-filter tail of a scan iteration agrees with ctxMatch
combined with the amount parse. -/
theorem ctx_branch_eq (user_id : String) (group_id : Option String) (row : Row) :
    (if truthyS group_id then
        (if row.gid ≠ group_id.getD "" then none else mkView row)
      else if ¬ (row.gid = "Private" ∧ row.uid = user_id) then none else mkView row) =
      if ctxMatch user_id group_id row && row.amt.isSome then some (viewOf row) else none := by
  rcases hamt : row.amt with _ | a
  · have hmv : mkView row = none := by simp [mkView, hamt]
    simp only [hamt, Option.isSome_none, Bool.and_false, Bool.false_eq_true, if_false]
    split_ifs <;> simp [hmv]
  · have hmv : mkView row = some (viewOf row) := by simp [mkView, viewOf, hamt]
    cases group_id with
    | none =>
      by_cases hm : row.gid = "Private" ∧ row.uid = user_id
      · simp [truthyS, ctxMatch, hm, hmv, hamt]
      · simp [truthyS, ctxMatch, hm, hmv, hamt]
    | some g =>
      by_cases hg : g = ""
      · subst hg
        by_cases hm : row.gid = "Private" ∧ row.uid = user_id
        · simp [truthyS, ctxMatch, hm, hmv, hamt]
        · simp [truthyS, ctxMatch, hm, hmv, hamt]
      · by_cases hm : row.gid = g
        · simp [truthyS, ctxMatch, hg, hm, hmv, hamt]
        · simp [truthyS, ctxMatch, hg, hm, hmv, hamt]

/-- One scan iteration keeps a row exactly when keepRow holds, and then
yields its view. -/
theorem row_to_record_eq (user_id : String) (group_id year_month : Option String) (row : Row) :
    row_to_record user_id group_id year_month row =
      if keepRow user_id group_id year_month row then some (viewOf row) else none := by
  by_cases hym : truthyS year_month ∧ ¬ pyStartsWith row.time (year_month.getD "")
  · obtain ⟨h1, h2⟩ := hym
    rw [Bool.not_eq_true] at h2
    simp [row_to_record, keepRow, h1, h2]
  · have hmonth : (!(truthyS year_month) || pyStartsWith row.time (year_month.getD "")) = true := by
      by_cases h1 : truthyS year_month
      · have h2 : pyStartsWith row.time (year_month.getD "") = true := by
          by_contra h3
          exact hym ⟨h1, h3⟩
        simp [h2]
      · simp [h1]
    rw [row_to_record, if_neg hym, ctx_branch_eq user_id group_id row]
    have hk : keepRow user_id group_id year_month row =
        (ctxMatch user_id group_id row && row.amt.isSome) := by
      simp [keepRow, hmonth, Bool.and_assoc]
    rw [hk]

/-- The record list is the kept rows of the reversed store, in order,
each mapped to its view. -/
theorem get_transactions_eq (user_id : String) (group_id year_month : Option String)
    (rows : List Row) :
    get_transactions_for_context user_id group_id year_month rows =
      ((rows.reverse.filter (keepRow user_id group_id year_month)).map viewOf) := by
  rw [get_transactions_for_context]
  induction rows.reverse with
  | nil => simp
  | cons r l ih =>
    rw [List.filterMap_cons, List.filter_cons, row_to_record_eq]
    by_cases hk : keepRow user_id group_id year_month r
    · simp [hk, ih]
    · simp [hk, ih]

/-! ## Partition of the record set into query contexts -/

/-- The row contribution is the parsed amount under a context match. -/
theorem rowVal_eq (user_id : String) (group_id : Option String) (row : Row) :
    rowVal user_id group_id row =
      if ctxMatch user_id group_id row then row.amt.getD 0 else 0 := by
  rw [rowVal]
  rcases hamt : row.amt with _ | a
  · simp [hamt]
  · simp [hamt]

/-- Summing a guarded value over a list equals summing the value over the
filtered list. -/
theorem sum_map_ite_filter {α : Type} (p : α → Bool) (v : α → ℚ) (l : List α) :
    (l.map (fun a => if p a then v a else 0)).sum = ((l.filter p).map v).sum := by
  induction l with
  | nil => simp
  | cons a l ih =>
    rw [List.map_cons, List.sum_cons, ih, List.filter_cons]
    by_cases h : p a
    · simp [h]
    · simp [h]

/-- Summing the parsed amounts equals summing the zero-defaulted
amounts. -/
theorem filterMap_amt_sum (l : List Row) :
    (l.filterMap (fun r => r.amt)).sum = (l.map (fun r => r.amt.getD 0)).sum := by
  induction l with
  | nil => simp
  | cons r l ih =>
    rcases hamt : r.amt with _ | a
    · simp [List.filterMap_cons, hamt, ih]
    · simp [List.filterMap_cons, hamt, ih]

/-- Over a duplicate-free key list containing a given key, the indicator
sum collapses to the single value. -/
theorem sum_map_ite_zero {K : Type} [DecidableEq K] (ks : List K) (k0 : K) (c : ℚ)
    (hnd : ks.Nodup) (hmem : k0 ∈ ks) :
    (ks.map (fun k => if k0 = k then c else 0)).sum = c := by
  induction ks with
  | nil => cases hmem
  | cons k ks ih =>
    rw [List.map_cons, List.sum_cons]
    by_cases hk : k0 = k
    · subst hk
      rw [if_pos rfl]
      have hnotin : k0 ∉ ks := (List.nodup_cons.mp hnd).1
      have hz : (ks.map (fun k => if k0 = k then c else 0)).sum = 0 := by
        apply List.sum_eq_zero
        intro x hx
        obtain ⟨k', hk', rfl⟩ := List.mem_map.mp hx
        rw [if_neg]
        intro h
        exact hnotin (h ▸ hk')
      rw [hz, add_zero]
    · rw [if_neg hk, zero_add]
      have hmem' : k0 ∈ ks := by
        cases List.mem_cons.mp hmem with
        | inl h => exact absurd h hk
        | inr h => exact h
      exact ih (List.nodup_cons.mp hnd).2 hmem'

/-- Fiberwise summation: when every element's key lies in a
duplicate-free key list, summing the fibers over the keys recovers the
total sum. -/
theorem sum_fiber_partition {α K : Type} [DecidableEq K] (f : α → K) (v : α → ℚ) :
    ∀ (l : List α) (ks : List K), ks.Nodup → (∀ a ∈ l, f a ∈ ks) →
      (ks.map (fun k => ((l.filter (fun a => f a = k)).map v).sum)).sum = (l.map v).sum := by
  intro l
  induction l with
  | nil =>
    intro ks _ _
    simp
  | cons a l ih =>
    intro ks hnd hcov
    have hcov' : ∀ b ∈ l, f b ∈ ks := fun b hb => hcov b (List.mem_cons_of_mem _ hb)
    have hfa : f a ∈ ks := hcov a (List.mem_cons_self _ _)
    have hstep : (fun k => ((List.filter (fun x => f x = k) (a :: l)).map v).sum)
        = (fun k => (if f a = k then v a else 0) +
            ((l.filter (fun x => f x = k)).map v).sum) := by
      funext k
      rw [List.filter_cons]
      by_cases h : f a = k
      · simp [h]
      · simp [h]
    rw [hstep, List.sum_map_add, sum_map_ite_zero ks (f a) (v a) hnd hfa, ih ks hnd hcov',
      List.map_cons, List.sum_cons]

/-- Map congruence on list members. -/
theorem map_congr_mem {α β : Type} (l : List α) (f g : α → β) (h : ∀ a ∈ l, f a = g a) :
    l.map f = l.map g := by
  induction l with
  | nil => rfl
  | cons a l ih =>
    rw [List.map_cons, List.map_cons, h a (List.mem_cons_self _ _),
      ih (fun b hb => h b (List.mem_cons_of_mem _ hb))]

/-- A private balance is the amount sum of the fiber of the private key
inside the rows with a non-empty context id. -/
theorem calc_balance_priv_fiber (u : String) (rows : List Row) :
    calc_balance u none rows =
      (((rows.filter (fun r => r.gid ≠ "")).filter
          (fun r => keyOf r = CtxKey.priv u)).map (fun r => r.amt.getD 0)).sum := by
  rw [calc_balance_eq_sum,
    map_congr_mem rows _ _ (fun r _ => rowVal_eq _ _ r),
    sum_map_ite_filter, List.filter_filter]
  refine congrArg (fun t : List Row => (List.map (fun r => r.amt.getD 0) t).sum) ?_
  apply List.filter_congr
  intro r _
  by_cases hp : r.gid = "Private"
  · by_cases hu : r.uid = u
    · simp [ctxMatch, keyOf, hp, hu]
    · simp [ctxMatch, keyOf, hp, hu]
  · simp [ctxMatch, keyOf, hp]

/-- A group balance for a non-empty, non-sentinel id is the amount sum of
the fiber of the group key inside the rows with a non-empty context
id. -/
theorem calc_balance_grp_fiber (g : String) (hg : g ≠ "") (hgp : g ≠ "Private")
    (rows : List Row) :
    calc_balance "" (some g) rows =
      (((rows.filter (fun r => r.gid ≠ "")).filter
          (fun r => keyOf r = CtxKey.grp g)).map (fun r => r.amt.getD 0)).sum := by
  rw [calc_balance_eq_sum,
    map_congr_mem rows _ _ (fun r _ => rowVal_eq _ _ r),
    sum_map_ite_filter, List.filter_filter]
  refine congrArg (fun t : List Row => (List.map (fun r => r.amt.getD 0) t).sum) ?_
  apply List.filter_congr
  intro r _
  by_cases hm : r.gid = g
  · have hne : r.gid ≠ "" := hm ▸ hg
    have hnp : r.gid ≠ "Private" := hm ▸ hgp
    simp [ctxMatch, keyOf, hg, hgp, hm, hne, hnp]
  · by_cases hp : r.gid = "Private"
    · simp [ctxMatch, keyOf, hg, hm, hp, Ne.symm hgp]
    · simp [ctxMatch, keyOf, hg, hm, hp]

/-- The context keys of the accounting enumeration are duplicate
free. -/
theorem accounting_keys_nodup (rows : List Row) :
    ((privateUsers rows).map CtxKey.priv ++ (groupIdsOf rows).map CtxKey.grp).Nodup := by
  apply List.Nodup.append
  · exact (List.nodup_dedup _).map (fun a b h => CtxKey.priv.inj h)
  · exact ((List.nodup_dedup _).filter _).map (fun a b h => CtxKey.grp.inj h)
  · intro x hx1 hx2
    obtain ⟨u, _, rfl⟩ := List.mem_map.mp hx1
    obtain ⟨g, _, hgx⟩ := List.mem_map.mp hx2
    exact CtxKey.noConfusion hgx

/-- Every row with a non-empty context id has its key inside the
accounting enumeration. -/
theorem accounting_keys_cover (rows : List Row) :
    ∀ r ∈ rows.filter (fun r => r.gid ≠ ""),
      keyOf r ∈ (privateUsers rows).map CtxKey.priv ++ (groupIdsOf rows).map CtxKey.grp := by
  intro r hr
  have hrr : r ∈ rows := (List.mem_filter.mp hr).1
  have hne : r.gid ≠ "" := by
    have := (List.mem_filter.mp hr).2
    exact of_decide_eq_true this
  by_cases hp : r.gid = "Private"
  · apply List.mem_append_left
    apply List.mem_map.mpr
    refine ⟨r.uid, ?_, by rw [keyOf, if_pos hp]⟩
    apply List.mem_dedup.mpr
    exact List.mem_map.mpr ⟨r, List.mem_filter.mpr ⟨hrr, by simp [hp]⟩, rfl⟩
  · apply List.mem_append_right
    apply List.mem_map.mpr
    refine ⟨r.gid, ?_, by rw [keyOf, if_neg hp]⟩
    apply List.mem_filter.mpr
    refine ⟨List.mem_dedup.mpr (List.mem_map.mpr ⟨r, hrr, rfl⟩), ?_⟩
    simp [hne, hp]

/-- The accounting identity: private balances of all users with private
rows plus group balances of all distinct proper group ids add up to the
parseable total of the rows with a non-empty context id. -/
theorem accounted_eq_total (rows : List Row) :
    accountedSum rows = parseableTotal (rows.filter (fun r => r.gid ≠ "")) := by
  have hmain := sum_fiber_partition keyOf (fun r => r.amt.getD 0)
    (rows.filter (fun r => r.gid ≠ ""))
    ((privateUsers rows).map CtxKey.priv ++ (groupIdsOf rows).map CtxKey.grp)
    (accounting_keys_nodup rows) (accounting_keys_cover rows)
  rw [List.map_append, List.sum_append, List.map_map, List.map_map] at hmain
  rw [accountedSum, parseableTotal, filterMap_amt_sum, ← hmain]
  have hpriv : (privateUsers rows).map (fun u => calc_balance u none rows) =
      (privateUsers rows).map
        ((fun k => ((((rows.filter (fun r => r.gid ≠ "")).filter
            (fun a => keyOf a = k)).map (fun r => r.amt.getD 0)).sum)) ∘ CtxKey.priv) := by
    apply map_congr_mem
    intro u _
    exact calc_balance_priv_fiber u rows
  have hgrp : (groupIdsOf rows).map (fun g => calc_balance "" (some g) rows) =
      (groupIdsOf rows).map
        ((fun k => ((((rows.filter (fun r => r.gid ≠ "")).filter
            (fun a => keyOf a = k)).map (fun r => r.amt.getD 0)).sum)) ∘ CtxKey.grp) := by
    apply map_congr_mem
    intro g hgmem
    have hcond := (List.mem_filter.mp hgmem).2
    have hcond' : g ≠ "" ∧ g ≠ "Private" := of_decide_eq_true hcond
    exact calc_balance_grp_fiber g hcond'.1 hcond'.2 rows
  rw [hpriv, hgrp]

/-! ## Structural facts about the evaluator and the parser -/

/-- Any tree the evaluator reduces to a value is built only from
whitelisted nodes. -/
theorem evalNode_ok_whitelisted :
    ∀ (t : PyExpr) (v : ℚ), evalNode t = .ok v → whitelistedTree t = true := by
  intro t
  induction t with
  | constNum q => intro v _; rfl
  | constEllipsis => intro v h; simp [evalNode] at h
  | constTuple => intro v h; simp [evalNode] at h
  | binOp o l r ihl ihr =>
    intro v h
    rw [evalNode] at h
    by_cases ho : o = .add ∨ o = .sub ∨ o = .mult ∨ o = .div
    · rw [if_pos ho] at h
      cases hl : evalNode l with
      | error e => rw [hl] at h; simp at h
      | ok x =>
        rw [hl] at h
        cases hr : evalNode r with
        | error e => rw [hr] at h; simp at h
        | ok y =>
          rw [whitelistedTree]
          simp [ho, ihl x hl, ihr y hr]
    · rw [if_neg ho] at h; simp at h
  | unaryOp o e ih =>
    intro v h
    rw [evalNode] at h
    by_cases ho : o = .uadd ∨ o = .usub
    · rw [if_pos ho] at h
      cases he : evalNode e with
      | error err => rw [he] at h; simp at h
      | ok x =>
        rw [whitelistedTree]
        simp [ho, ih x he]
    · rw [if_neg ho] at h; simp at h

/-- Unfolded shape of parse_transaction, used to reason by cases. -/
theorem parse_transaction_eq (text : String) :
    parse_transaction text =
      (match (to_halfwidth (pyStrip text)).data.head? with
       | none => .error .notATransaction
       | some c0 =>
         if c0 ≠ '+' ∧ c0 ≠ '-' then .error .notATransaction
         else
           if stripList ((to_halfwidth (pyStrip text)).data.takeWhile isAllowedChar) = [] ∨
               ¬ (stripList
                   ((to_halfwidth (pyStrip text)).data.takeWhile isAllowedChar)).any
                   Char.isDigit then
             .error .notATransaction
           else
             match safe_eval (String.mk
                 (stripList ((to_halfwidth (pyStrip text)).data.takeWhile isAllowedChar))) with
             | .error e => .error (.evalFailure e)
             | .ok amount =>
               .ok (amount,
                 if stripList ((to_halfwidth (pyStrip text)).data.drop
                     ((to_halfwidth (pyStrip text)).data.takeWhile isAllowedChar).length) = []
                 then "無備註"
                 else String.mk (stripList ((to_halfwidth (pyStrip text)).data.drop
                     ((to_halfwidth (pyStrip text)).data.takeWhile isAllowedChar).length)),
                 String.mk
                   (stripList ((to_halfwidth (pyStrip text)).data.takeWhile isAllowedChar)))) :=
  rfl

/-! ## Claims -/

/-- C4: safe_eval either returns a value computed only with numeric
literals, the four whitelisted binary operators and the two unary sign
operators, or fails; any parsed node or operator kind outside the
whitelist makes the evaluation fail, and an expression that is empty
after whitespace removal fails as well. -/
theorem C4_evaluator_whitelist :
    (∀ (t : PyExpr) (v : ℚ), evalNode t = .ok v → whitelistedTree t = true) ∧
    (∀ (s : String) (v : ℚ), safe_eval s = .ok v →
      ∃ t : PyExpr, evalNode t = .ok v ∧ whitelistedTree t = true) ∧
    (∀ s : String, s.data.filter (fun c => c ≠ ' ') = [] →
      safe_eval s = .error .emptyExpr) := by
  refine ⟨evalNode_ok_whitelisted, ?_, ?_⟩
  · intro s v h
    rw [safe_eval] at h
    split at h
    · simp at h
    · split at h
      · simp at h
      · split at h
        · simp at h
        · rename_i t _
          exact ⟨t, h, evalNode_ok_whitelisted t v h⟩
  · intro s h
    rw [safe_eval, if_pos h]

/-- Witness for C4 at concrete inputs. -/
theorem C4_evaluator_whitelist_witness :
    whitelistedTree (.binOp .add (.constNum 1) (.constNum 2)) = true ∧
    safe_eval "   " = .error .emptyExpr :=
  ⟨C4_evaluator_whitelist.1 (.binOp .add (.constNum 1) (.constNum 2)) 3 (by decide),
   C4_evaluator_whitelist.2.2 "   " (by decide)⟩

/-- C6: a division whose right operand evaluates to zero fails with the
division-by-zero error instead of returning a value, and the transaction
command "+1/0" propagates that failure out of the parser. -/
theorem C6_division_by_zero_fails :
    (∀ (l r : PyExpr) (x : ℚ), evalNode l = .ok x → evalNode r = .ok 0 →
      evalNode (.binOp .div l r) = .error .divByZero) ∧
    parse_transaction "+1/0" = .error (.evalFailure .divByZero) := by
  constructor
  · intro l r x hl hr
    rw [evalNode, if_pos (by simp : PyBinOp.div = .add ∨ PyBinOp.div = .sub ∨
      PyBinOp.div = .mult ∨ PyBinOp.div = .div), hl, hr]
    simp
  · decide

/-- Witness for C6 at a concrete division by zero. -/
theorem C6_division_by_zero_fails_witness :
    evalNode (.binOp .div (.constNum 1) (.constNum 0)) = .error .divByZero :=
  C6_division_by_zero_fails.1 (.constNum 1) (.constNum 0) 1 (by decide) (by decide)

/-- C5: parse_transaction fails with the not-a-transaction error exactly
when, after trimming and full-width normalization, the text is empty or
does not start with a half-width sign, or the greedily consumed
expression prefix (stripped) contains no digit; evaluator failures carry
a different error. -/
theorem C5_not_a_transaction_iff (text : String) :
    parse_transaction text = .error .notATransaction ↔
      (¬ ((to_halfwidth (pyStrip text)).data.head? = some '+' ∨
          (to_halfwidth (pyStrip text)).data.head? = some '-') ∨
       ¬ ((stripList ((to_halfwidth (pyStrip text)).data.takeWhile isAllowedChar)).any
            Char.isDigit = true)) := by
  rw [parse_transaction_eq]
  split
  · rename_i hh
    simp [hh]
  · rename_i c0 hh
    rw [hh]
    by_cases hc : c0 ≠ '+' ∧ c0 ≠ '-'
    · rw [if_pos hc]
      simp [hc.1, hc.2]
    · rw [if_neg hc]
      have hc' : c0 = '+' ∨ c0 = '-' := by
        by_cases h1 : c0 = '+'
        · exact .inl h1
        · right
          by_contra h2
          exact hc ⟨h1, h2⟩
      have hfirst : (some c0 = some '+' ∨ some c0 = some '-') := by
        rcases hc' with h | h
        · exact .inl (by rw [h])
        · exact .inr (by rw [h])
      by_cases hd : stripList ((to_halfwidth (pyStrip text)).data.takeWhile isAllowedChar) = [] ∨
          ¬ ((stripList ((to_halfwidth (pyStrip text)).data.takeWhile isAllowedChar)).any
              Char.isDigit = true)
      · rw [if_pos hd]
        constructor
        · intro _
          right
          rcases hd with hd | hd
          · simp [hd]
          · exact hd
        · intro _
          rfl
      · rw [if_neg hd]
        push_neg at hd
        constructor
        · intro h
          exfalso
          cases hse : safe_eval (String.mk
              (stripList ((to_halfwidth (pyStrip text)).data.takeWhile isAllowedChar))) with
          | error e => rw [hse] at h; simp at h
          | ok amount => rw [hse] at h; simp at h
        · intro hr
          exfalso
          rcases hr with hr | hr
          · exact hr hfirst
          · exact hr hd.2

/-- Witness for C5 at a concrete chat message. -/
theorem C5_not_a_transaction_iff_witness :
    parse_transaction "hello" = .error .notATransaction :=
  (C5_not_a_transaction_iff "hello").mpr (by decide)

/-- C7: the two specification scenarios hold, and every successful parse
returns a non-empty memo, an amount that is exactly the evaluation of the
returned expression prefix, and a memo that is the stripped remainder
after the consumed prefix or the fixed placeholder when that remainder is
empty. -/
theorem C7_parse_transaction_results :
    parse_transaction "+200午餐" = .ok (200, "午餐", "+200") ∧
    parse_transaction "-50*2交通" = .ok (-100, "交通", "-50*2") ∧
    (∀ (text : String) (a : ℚ) (m e : String),
      parse_transaction text = .ok (a, m, e) →
        m ≠ "" ∧ safe_eval e = .ok a ∧
        e = String.mk (stripList ((to_halfwidth (pyStrip text)).data.takeWhile isAllowedChar)) ∧
        ((stripList ((to_halfwidth (pyStrip text)).data.drop
            ((to_halfwidth (pyStrip text)).data.takeWhile isAllowedChar).length) = [] ∧
          m = "無備註") ∨
         (stripList ((to_halfwidth (pyStrip text)).data.drop
            ((to_halfwidth (pyStrip text)).data.takeWhile isAllowedChar).length) ≠ [] ∧
          m = String.mk (stripList ((to_halfwidth (pyStrip text)).data.drop
            ((to_halfwidth (pyStrip text)).data.takeWhile isAllowedChar).length))))) := by
  refine ⟨by decide, by decide, ?_⟩
  intro text a m e h
  rw [parse_transaction_eq] at h
  split at h
  · simp at h
  · split at h
    · simp at h
    · split at h
      · simp at h
      · split at h
        · simp at h
        · rename_i amount hse
          simp only [Except.ok.injEq, Prod.mk.injEq] at h
          obtain ⟨ha, hm, he⟩ := h
          subst ha
          subst he
          refine ⟨?_, hse, rfl, ?_⟩
          · by_cases hraw : stripList ((to_halfwidth (pyStrip text)).data.drop
                ((to_halfwidth (pyStrip text)).data.takeWhile isAllowedChar).length) = []
            · rw [if_pos hraw] at hm
              subst hm
              decide
            · rw [if_neg hraw] at hm
              subst hm
              intro h0
              apply hraw
              have h1 := congrArg String.data h0
              simpa using h1
          · by_cases hraw : stripList ((to_halfwidth (pyStrip text)).data.drop
                ((to_halfwidth (pyStrip text)).data.takeWhile isAllowedChar).length) = []
            · rw [if_pos hraw] at hm
              exact .inl ⟨hraw, hm.symm⟩
            · rw [if_neg hraw] at hm
              exact .inr ⟨hraw, hm.symm⟩

/-- Witness for C7 at a concrete parsed command. -/
theorem C7_parse_transaction_results_witness :
    ("午餐" : String) ≠ "" ∧ safe_eval "+200" = .ok 200 :=
  ⟨(C7_parse_transaction_results.2.2 "+200午餐" 200 "午餐" "+200" (by decide)).1,
   (C7_parse_transaction_results.2.2 "+200午餐" 200 "午餐" "+200" (by decide)).2.1⟩

/-- C1 counterexample: a legacy record whose context id is the empty
string and whose user id matches the querying user is not counted by the
private balance and does not appear in the private record list. -/
theorem C1_counterexample :
    calc_balance "A" none
      [{ time := "2025-11-01 10:00:00", uid := "A", gid := "", amt := some 5,
         memo := "lunch", raw := "+5" }] = 0 ∧
    (0 : ℚ) ≠ 5 ∧
    get_transactions_for_context "A" none none
      [{ time := "2025-11-01 10:00:00", uid := "A", gid := "", amt := some 5,
         memo := "lunch", raw := "+5" }] = [] := by
  refine ⟨by decide, by decide, by decide⟩

/-- C1 amended: a record with the legacy empty context id contributes
nothing to any private balance and never appears in a private record
list; only records carrying the exact sentinel (with matching user id)
are counted. -/
theorem C1_legacy_empty_excluded (user_id : String) (year_month : Option String)
    (l₁ l₂ : List Row) (r : Row) (hr : r.gid = "") :
    calc_balance user_id none (l₁ ++ r :: l₂) = calc_balance user_id none (l₁ ++ l₂) ∧
    get_transactions_for_context user_id none year_month (l₁ ++ r :: l₂) =
      get_transactions_for_context user_id none year_month (l₁ ++ l₂) := by
  have hmatch : ctxMatch user_id none r = false := by
    simp [ctxMatch, hr]
  constructor
  · rw [calc_balance_eq_sum, calc_balance_eq_sum, List.map_append, List.map_append,
      List.map_cons, List.sum_append, List.sum_append, List.sum_cons, rowVal_eq, hmatch]
    simp
  · have hnone : row_to_record user_id none year_month r = none := by
      rw [row_to_record_eq]
      simp [keepRow, hmatch]
    rw [get_transactions_for_context, get_transactions_for_context,
      List.reverse_append, List.reverse_append, List.reverse_cons,
      List.filterMap_append, List.filterMap_append, List.filterMap_append]
    simp [List.filterMap_cons, hnone]

/-- Witness for C1 amended at a concrete legacy row. -/
theorem C1_legacy_empty_excluded_witness :
    calc_balance "A" none
      ([] ++ ({ time := "t", uid := "A", gid := "", amt := some 5,
                memo := "m", raw := "+5" } : Row) ::
        [{ time := "t2", uid := "A", gid := "Private", amt := some 3,
           memo := "m2", raw := "+3" }]) =
      calc_balance "A" none
        ([] ++ [{ time := "t2", uid := "A", gid := "Private", amt := some 3,
                  memo := "m2", raw := "+3" }]) :=
  (C1_legacy_empty_excluded "A" none [] _ _ (by decide)).1

/-- C2 counterexample: the balance keyword is matched case sensitively,
so the message "Balance" is not routed to the balance query; it falls
through to transaction parsing and is silently ignored. -/
theorem C2_counterexample :
    handle_message_route "Balance" = .ignored ∧ Route.ignored ≠ Route.balanceQuery := by
  refine ⟨by decide, by decide⟩

/-- C2 amended: the report keywords are routed case insensitively before
transaction parsing, while the balance keywords are routed only on an
exact (case-sensitive) match of the stripped text. -/
theorem C2_keyword_routing (text0 : String) :
    (pyStrip text0 = "餘額" ∨ pyStrip text0 = "balance" →
      handle_message_route text0 = .balanceQuery) ∧
    (pyStrip text0 ≠ "餘額" → pyStrip text0 ≠ "balance" →
      (pyLower (pyStrip (pyStrip text0)) = "報表" ∨
        pyLower (pyStrip (pyStrip text0)) = "report" ∨
        pyLower (pyStrip (pyStrip text0)) = "excel") →
      handle_message_route text0 = .report) := by
  constructor
  · intro h
    rw [handle_message_route]
    have hm : pyStrip text0 ∈ ["餘額", "balance"] := by
      rcases h with h | h <;> simp [h]
    rw [if_pos hm]
  · intro h1 h2 h3
    rw [handle_message_route]
    have hm : ¬ (pyStrip text0 ∈ ["餘額", "balance"]) := by
      simp [h1, h2]
    rw [if_neg hm]
    have hm2 : pyLower (pyStrip (pyStrip text0)) ∈ ["報表", "report", "excel"] := by
      rcases h3 with h | h | h <;> simp [h]
    rw [if_pos hm2]

/-- Witness for C2 amended at concrete keywords. -/
theorem C2_keyword_routing_witness :
    handle_message_route "balance" = .balanceQuery ∧ handle_message_route "Excel" = .report :=
  ⟨(C2_keyword_routing "balance").1 (.inr (by decide)),
   (C2_keyword_routing "Excel").2 (by decide) (by decide) (.inr (.inr (by decide)))⟩

/-- C8: the record list is exactly the stored rows in reverse append
order, restricted to the rows that pass the month-prefix window, match
the context and carry a parseable amount, each rendered as a view; no
timestamp sort is involved, and an empty result arises exactly when no
row survives, without an error. -/
theorem C8_record_list_shape (user_id : String) (group_id year_month : Option String)
    (rows : List Row) :
    get_transactions_for_context user_id group_id year_month rows =
      (rows.reverse.filter (keepRow user_id group_id year_month)).map viewOf ∧
    (get_transactions_for_context user_id group_id year_month rows = [] ↔
      rows.reverse.filter (keepRow user_id group_id year_month) = []) := by
  refine ⟨get_transactions_eq user_id group_id year_month rows, ?_⟩
  rw [get_transactions_eq user_id group_id year_month rows]
  exact List.map_eq_nil_iff

/-- Witness for C8 at a concrete store. -/
theorem C8_record_list_shape_witness :
    get_transactions_for_context "A" none none
      [{ time := "2025-11-01 10:00:00", uid := "A", gid := "Private", amt := some 5,
         memo := "m", raw := "+5" }] =
      (([{ time := "2025-11-01 10:00:00", uid := "A", gid := "Private", amt := some 5,
           memo := "m", raw := "+5" }] : List Row).reverse.filter
        (keepRow "A" none none)).map viewOf :=
  (C8_record_list_shape "A" none none _).1

/-- C9: a row whose amount cannot be parsed is skipped by both the
balance computation and the record listing; inserting such a row anywhere
changes neither result and aborts nothing. -/
theorem C9_malformed_rows_skipped (user_id : String) (group_id year_month : Option String)
    (l₁ l₂ : List Row) (m : Row) (hm : m.amt = none) :
    calc_balance user_id group_id (l₁ ++ m :: l₂) = calc_balance user_id group_id (l₁ ++ l₂) ∧
    get_transactions_for_context user_id group_id year_month (l₁ ++ m :: l₂) =
      get_transactions_for_context user_id group_id year_month (l₁ ++ l₂) := by
  constructor
  · rw [calc_balance_eq_sum, calc_balance_eq_sum, List.map_append, List.map_append,
      List.map_cons, List.sum_append, List.sum_append, List.sum_cons, rowVal_eq]
    simp [hm]
  · have hnone : row_to_record user_id group_id year_month m = none := by
      rw [row_to_record_eq]
      simp [keepRow, hm]
    rw [get_transactions_for_context, get_transactions_for_context,
      List.reverse_append, List.reverse_append, List.reverse_cons,
      List.filterMap_append, List.filterMap_append, List.filterMap_append]
    simp [List.filterMap_cons, hnone]

/-- Witness for C9 at a concrete malformed row. -/
theorem C9_malformed_rows_skipped_witness :
    calc_balance "A" none
      ([] ++ ({ time := "t", uid := "A", gid := "Private", amt := none,
                memo := "bad", raw := "x" } : Row) ::
        [{ time := "t2", uid := "A", gid := "Private", amt := some 3,
           memo := "m2", raw := "+3" }]) =
      calc_balance "A" none
        ([] ++ [{ time := "t2", uid := "A", gid := "Private", amt := some 3,
                  memo := "m2", raw := "+3" }]) :=
  (C9_malformed_rows_skipped "A" none none [] _ _ (by decide)).1

/-- C3 counterexample: the partition claim fails as stated, because a
group context whose id equals the sentinel "Private" counts exactly the
records that the private contexts already count: one stored record is
counted by two distinct contexts, so the sum over private and group
contexts does not account for it exactly once. -/
theorem C3_counterexample :
    calc_balance "A" none
      [{ time := "t", uid := "A", gid := "Private", amt := some 5,
         memo := "m", raw := "+5" }] = 5 ∧
    calc_balance "B" (some "Private")
      [{ time := "t", uid := "A", gid := "Private", amt := some 5,
         memo := "m", raw := "+5" }] = 5 ∧
    parseableTotal
      [{ time := "t", uid := "A", gid := "Private", amt := some 5,
         memo := "m", raw := "+5" }] = 5 ∧
    (5 : ℚ) + 5 ≠ 5 := by
  refine ⟨by decide, by decide, ?_, by norm_num⟩
  simp [parseableTotal]

/-- C3 amended: with group contexts restricted to ids other than the
empty string and the sentinel, the context predicates are pairwise
disjoint, every balance is the sum of the amounts of its matching rows,
the private balances of all users plus the balances of all distinct
proper group ids account exactly once for every parseable record whose
context id is non-empty (legacy empty-id records are counted by no
context), and the writer never produces an empty context id. -/
theorem C3_partition (rows : List Row) :
    accountedSum rows = parseableTotal (rows.filter (fun r => r.gid ≠ "")) ∧
    (∀ (user_id : String) (group_id : Option String),
      calc_balance user_id group_id rows =
        ((rows.filter (ctxMatch user_id group_id)).filterMap (fun r => r.amt)).sum) ∧
    (∀ (r : Row) (u₁ u₂ : String), u₁ ≠ u₂ →
      ¬ (ctxMatch u₁ none r = true ∧ ctxMatch u₂ none r = true)) ∧
    (∀ (r : Row) (u : String) (g₁ g₂ : String), g₁ ≠ "" → g₂ ≠ "" → g₁ ≠ g₂ →
      ¬ (ctxMatch u (some g₁) r = true ∧ ctxMatch u (some g₂) r = true)) ∧
    (∀ (r : Row) (u u' : String) (g : String), g ≠ "" → g ≠ "Private" →
      ¬ (ctxMatch u none r = true ∧ ctxMatch u' (some g) r = true)) ∧
    (∀ (user_id : String) (group_id : Option String) (now : String) (a : ℚ) (memo raw : String),
      (write_record_row user_id group_id now a memo raw).gid ≠ "") := by
  refine ⟨accounted_eq_total rows, fun u g => calc_balance_eq_filter u g rows, ?_, ?_, ?_, ?_⟩
  · intro r u₁ u₂ hne ⟨h1, h2⟩
    have g1 : r.gid = "Private" ∧ r.uid = u₁ := by simpa [ctxMatch] using h1
    have g2 : r.gid = "Private" ∧ r.uid = u₂ := by simpa [ctxMatch] using h2
    exact hne (g1.2 ▸ g2.2 ▸ rfl)
  · intro r u g₁ g₂ hg₁ hg₂ hne ⟨h1, h2⟩
    have g1 : r.gid = g₁ := by simpa [ctxMatch, hg₁] using h1
    have g2 : r.gid = g₂ := by simpa [ctxMatch, hg₂] using h2
    exact hne (g1 ▸ g2)
  · intro r u u' g hg hgp ⟨h1, h2⟩
    have g1 : r.gid = "Private" ∧ r.uid = u := by simpa [ctxMatch] using h1
    have g2 : r.gid = g := by simpa [ctxMatch, hg] using h2
    exact hgp (g2 ▸ g1.1)
  · intro user_id group_id now a memo raw
    cases group_id with
    | none => simp [write_record_row, truthyS]
    | some g =>
      by_cases hg : g = ""
      · simp [write_record_row, truthyS, hg]
      · simp [write_record_row, truthyS, hg]

/-- Witness for C3 amended at concrete rows and contexts. -/
theorem C3_partition_witness :
    accountedSum
      [{ time := "t", uid := "A", gid := "Private", amt := some 5,
         memo := "m", raw := "+5" }] =
      parseableTotal
        (([{ time := "t", uid := "A", gid := "Private", amt := some 5,
             memo := "m", raw := "+5" }] : List Row).filter (fun r => r.gid ≠ "")) ∧
    ¬ (ctxMatch "A" none
        { time := "t", uid := "A", gid := "Private", amt := some 5,
          memo := "m", raw := "+5" } = true ∧
       ctxMatch "B" none
        { time := "t", uid := "A", gid := "Private", amt := some 5,
          memo := "m", raw := "+5" } = true) ∧
    (write_record_row "A" none "t" 5 "m" "+5").gid ≠ "" :=
  ⟨(C3_partition _).1,
   (C3_partition []).2.2.1 _ "A" "B" (by decide),
   (C3_partition []).2.2.2.2.2 "A" none "t" 5 "m" "+5"⟩

/-- C10: a successful report query returns exactly the first ten
most-recent matching records of the current month while its displayed
total is the amount sum over all matching records; with more than ten
matches the list is capped at ten and the total also covers the records
that are not rendered. -/
theorem C10_report_totals (user_id : String) (group_id : Option String)
    (current_month : String) (rows : List Row) (recs : List TxView) (total : ℚ) (n : Nat)
    (h : handle_report_query user_id group_id current_month rows = some (recs, total, n)) :
    recs = (get_transactions_for_context user_id group_id (some current_month) rows).take 10 ∧
    total = ((get_transactions_for_context user_id group_id (some current_month) rows).map
        (fun r => r.amount)).sum ∧
    n = (get_transactions_for_context user_id group_id (some current_month) rows).length ∧
    total = (recs.map (fun r => r.amount)).sum +
      (((get_transactions_for_context user_id group_id (some current_month) rows).drop 10).map
        (fun r => r.amount)).sum ∧
    (10 < n → recs.length = 10 ∧
      (get_transactions_for_context user_id group_id (some current_month) rows).drop 10 ≠ []) := by
  rw [handle_report_query] at h
  split at h
  · simp at h
  · rename_i hne
    simp only [Option.some.injEq, Prod.mk.injEq] at h
    obtain ⟨hrecs, htotal, hn⟩ := h
    subst hrecs
    subst hn
    have hsum : total = ((get_transactions_for_context user_id group_id
        (some current_month) rows).map (fun r => r.amount)).sum := by
      rw [← htotal, qsum_eq]
    refine ⟨rfl, hsum, rfl, ?_, ?_⟩
    · conv_lhs => rw [hsum]
      conv_lhs => rw [← List.take_append_drop 10
        (get_transactions_for_context user_id group_id (some current_month) rows)]
      rw [List.map_append, List.sum_append]
    · intro hlen
      constructor
      · rw [List.length_take]
        exact Nat.min_eq_left (Nat.le_of_lt hlen)
      · intro hdrop
        have := List.drop_eq_nil_iff.mp hdrop
        exact absurd hlen (Nat.not_lt.mpr this)

/-- Witness for C10 at a store with eleven matching records. -/
theorem C10_report_totals_witness :
    (List.replicate 10
      ({ time := "11/01 10:00", amount := 1, memo := "m" } : TxView)).length = 10 ∧
    (get_transactions_for_context "A" none (some "2025-11")
      (List.replicate 11
        ({ time := "2025-11-01 10:00:00", uid := "A", gid := "Private", amt := some 1,
           memo := "m", raw := "+1" } : Row))).drop 10 ≠ [] :=
  (C10_report_totals "A" none "2025-11"
    (List.replicate 11
      { time := "2025-11-01 10:00:00", uid := "A", gid := "Private", amt := some 1,
        memo := "m", raw := "+1" })
    (List.replicate 10 { time := "11/01 10:00", amount := 1, memo := "m" })
    11 11 (by decide)).2.2.2.2 (by decide)
